import Mathlib

/-!
Shallow embedding of `examples/generate_graphs.py` (energy-aware epidemic
routing graph generation), covering the log-to-series extraction and
aggregation pipeline:

* `parse_energy_log` — regex scan `Node (\d+):.*(?:Energy|Remaining)=([\d.]+)J`
  and `Time: ([\d.]+)` over each line, accumulating a per-node energy mapping
  (a `defaultdict(list)`, insertion-ordered) and a global time list;
* `parse_pdr_log` — regex scan `PDR: ([\d.]+).*time ([\d.]+)`;
* the average-energy computation of `plot_average_energy`;
* the lifetime computation of `plot_network_lifetime`;
* the control flow of `main`.

Modelling conventions:
* Python floats are modelled as `ℚ`; every numeric literal in the claims is
  exactly representable and all arithmetic involved is exact.
* A line of text is a `List Char`; lines produced by Python file iteration
  contain no interior newline, and none of the patterns involves a newline.
* The three fixed regexes are embedded as specialised matchers with Python
  `re.search` semantics (leftmost match; greedy quantifiers with backtracking).
  For these particular patterns backtracking is deterministic; comments at
  each matcher record the case analysis justifying the specialised form.
* Exceptions (`ValueError` from `float`, `FileNotFoundError` from `open`) are
  modelled with `Except String` / an explicit `PyResult` type.
-/

namespace EnergyGraphs

/-- A line of log text as a character list (no interior newline). -/
abbrev Line := List Char

/-- Membership in the regex character class `[\d.]`. -/
def isNumChar (c : Char) : Bool := c.isDigit || c == '.'

/-- Match a literal regex fragment: if `lit` is an initial segment of `cs`,
return the remainder of `cs`, otherwise fail. -/
def matchLit : List Char → List Char → Option (List Char)
  | [], cs => some cs
  | _ :: _, [] => none
  | l :: ls, c :: cs => if c == l then matchLit ls cs else none

/-- Greedy `[class]+`: the maximal run of characters satisfying `p`, failing
when the run is empty.  Returns the run and the remainder. -/
def takeRun1 (p : Char → Bool) (cs : List Char) : Option (List Char × List Char) :=
  if (cs.takeWhile p).isEmpty then none else some (cs.takeWhile p, cs.dropWhile p)

/-- Value of `(\d+)` converted by Python `int` (digits only, cannot fail). -/
def natOfDigits (ds : List Char) : Nat := ds.foldl (fun a c => a * 10 + (c.toNat - 48)) 0

/-- Python `float(s)` restricted to the nonempty strings over digits and dots
that `([\d.]+)` can capture: conversion succeeds iff the capture has at most
one dot and at least one digit (so `"1."`, `".5"`, `"07"` succeed while
`"."`, `".."` and `"1.2.3"` raise `ValueError`), and the value is the usual
decimal reading. -/
def pyFloatOfRun (v : List Char) : Option ℚ :=
  if v.count '.' ≤ 1 ∧ v.any Char.isDigit then
    some ((natOfDigits (v.takeWhile (fun c => c ≠ '.')) : ℚ) +
      (natOfDigits ((v.dropWhile (fun c => c ≠ '.')).drop 1) : ℚ) /
        (10 : ℚ) ^ ((v.dropWhile (fun c => c ≠ '.')).drop 1).length)
  else none

/-! ### The energy pattern `Node (\d+):.*(?:Energy|Remaining)=([\d.]+)J`

At a fixed position, `(\d+)` takes the maximal digit run and must be followed
by `:`; backtracking to a shorter run cannot help because the following
character would then be a digit, not `:`.  Likewise `([\d.]+)` before the
literal `J` admits no useful backtracking (a shorter run ends in a digit or
dot, never `J`).  The greedy `.*` means the rightmost position at which
`(?:Energy|Remaining)=([\d.]+)J` succeeds is the one that provides group 2,
and `re.search` tries start positions left to right. -/

/-- Attempt `(?:Energy|Remaining)=([\d.]+)J` exactly at the head of `cs`,
returning the `([\d.]+)` capture. -/
def energyValHere (cs : List Char) : Option (List Char) :=
  match matchLit ("Energy=".toList) cs <|> matchLit ("Remaining=".toList) cs with
  | none => none
  | some rest =>
      match takeRun1 isNumChar rest with
      | none => none
      | some (v, rest2) =>
          match rest2 with
          | c :: _ => if c = 'J' then some v else none
          | [] => none

/-- Rightmost position in `cs` at which `energyValHere` succeeds (greedy `.*`:
the longest skip is tried first). -/
def findLastEnergyVal : List Char → Option (List Char)
  | [] => none
  | c :: cs => findLastEnergyVal cs <|> energyValHere (c :: cs)

/-- Attempt the full energy pattern anchored at the head of `cs`; returns the
two captures (node-id digits, energy value run). -/
def energyMatchAt (cs : List Char) : Option (List Char × List Char) :=
  match matchLit ("Node ".toList) cs with
  | none => none
  | some rest =>
      match takeRun1 Char.isDigit rest with
      | none => none
      | some (ds, rest2) =>
          match rest2 with
          | c :: rest3 =>
              if c = ':' then (findLastEnergyVal rest3).map (fun v => (ds, v)) else none
          | [] => none

/-- `re.search` for the energy pattern: leftmost start position wins. -/
def searchEnergy : List Char → Option (List Char × List Char)
  | [] => none
  | c :: cs => energyMatchAt (c :: cs) <|> searchEnergy cs

/-! ### The time pattern `Time: ([\d.]+)`

The trailing `([\d.]+)` has no following constraint, so the capture is simply
the maximal nonempty run after the literal `Time: `. -/

/-- Attempt `Time: ([\d.]+)` anchored at the head of `cs`. -/
def timeMatchAt (cs : List Char) : Option (List Char) :=
  match matchLit ("Time: ".toList) cs with
  | none => none
  | some rest =>
      match takeRun1 isNumChar rest with
      | none => none
      | some (v, _) => some v

/-- `re.search` for the time pattern: leftmost start position wins. -/
def searchTime : List Char → Option (List Char)
  | [] => none
  | c :: cs => timeMatchAt (c :: cs) <|> searchTime cs

/-! ### The PDR pattern `PDR: ([\d.]+).*time ([\d.]+)`

Group 1 is the maximal run after `PDR: ` — backtracking it shorter only
prepends digit/dot characters to the remainder, and `time ` cannot start on a
digit or dot, so no new `time` occurrence can appear.  The greedy `.*` then
selects the rightmost position at which `time ([\d.]+)` succeeds. -/

/-- Attempt `time ([\d.]+)` anchored at the head of `cs`. -/
def pdrTimeHere (cs : List Char) : Option (List Char) :=
  match matchLit ("time ".toList) cs with
  | none => none
  | some rest =>
      match takeRun1 isNumChar rest with
      | none => none
      | some (v, _) => some v

/-- Rightmost position in `cs` at which `pdrTimeHere` succeeds. -/
def findLastPdrTime : List Char → Option (List Char)
  | [] => none
  | c :: cs => findLastPdrTime cs <|> pdrTimeHere (c :: cs)

/-- Attempt the full PDR pattern anchored at the head of `cs`; returns the two
captures (ratio run, time run). -/
def pdrMatchAt (cs : List Char) : Option (List Char × List Char) :=
  match matchLit ("PDR: ".toList) cs with
  | none => none
  | some rest =>
      match takeRun1 isNumChar rest with
      | none => none
      | some (v1, rest2) => (findLastPdrTime rest2).map (fun v2 => (v1, v2))

/-- `re.search` for the PDR pattern: leftmost start position wins. -/
def searchPdr : List Char → Option (List Char × List Char)
  | [] => none
  | c :: cs => pdrMatchAt (c :: cs) <|> searchPdr cs

/-! ### The extraction passes -/

/-- The `node_energy` mapping: `defaultdict(int → list of float)`, kept as an
association list in key-insertion order (CPython dicts preserve insertion
order; keys are distinct by construction). -/
abbrev EnergySeries := List (Nat × List ℚ)

/-- `node_energy[node_id].append(energy)` on a `defaultdict(list)`: append to
the existing entry, or create the entry at the end on first sight. -/
def appendEnergy : EnergySeries → Nat → ℚ → EnergySeries
  | [], nid, q => [(nid, [q])]
  | (k, vs) :: rest, nid, q =>
      if k = nid then (k, vs ++ [q]) :: rest else (k, vs) :: appendEnergy rest nid q

/-- The energy half of one loop iteration of `parse_energy_log`: on an energy
match, convert the value (a failing `float` raises `ValueError`) and append it
to the matched node's sequence. -/
def energyUpd (ne : EnergySeries) (line : Line) : Except String EnergySeries :=
  match searchEnergy line with
  | some dv =>
      match pyFloatOfRun dv.2 with
      | some q => Except.ok (appendEnergy ne (natOfDigits dv.1) q)
      | none => Except.error "ValueError"
  | none => Except.ok ne

/-- The time half of one loop iteration of `parse_energy_log`: on a time
match, convert the value and append it to the global time list. -/
def timesUpd (ts : List ℚ) (line : Line) : Except String (List ℚ) :=
  match searchTime line with
  | some v =>
      match pyFloatOfRun v with
      | some q => Except.ok (ts ++ [q])
      | none => Except.error "ValueError"
  | none => Except.ok ts

/-- One iteration of the `parse_energy_log` loop on state
`(times, node_energy)`: the energy match is processed first, then the
independent time match, exactly as the two `re.search` blocks in the loop
body. -/
def energyLineStep (acc : List ℚ × EnergySeries) (line : Line) :
    Except String (List ℚ × EnergySeries) := do
  let ne ← energyUpd acc.2 line
  let ts ← timesUpd acc.1 line
  Except.ok (ts, ne)

/-- The body of `parse_energy_log` once the file has been read into lines:
fold the per-line step from empty state; the Python function returns the pair
`(times, node_energy)`. -/
def parse_energy_lines (lines : List Line) : Except String (List ℚ × EnergySeries) :=
  lines.foldlM energyLineStep ([], [])

/-- One iteration of the `parse_pdr_log` loop on state
`(times, pdr_values)`: a line contributes iff the two-field pattern matches,
and then contributes to both lists (group 1 to `pdr_values`, group 2 to
`times`); a failing conversion raises. -/
def pdrLineStep (acc : List ℚ × List ℚ) (line : Line) : Except String (List ℚ × List ℚ) :=
  match searchPdr line with
  | some vv =>
      match pyFloatOfRun vv.1, pyFloatOfRun vv.2 with
      | some q1, some q2 => Except.ok (acc.1 ++ [q2], acc.2 ++ [q1])
      | _, _ => Except.error "ValueError"
  | none => Except.ok acc

/-- The body of `parse_pdr_log` once the file has been read into lines; the
Python function returns the pair `(times, pdr_values)`. -/
def parse_pdr_lines (lines : List Line) : Except String (List ℚ × List ℚ) :=
  lines.foldlM pdrLineStep ([], [])

/-! ### The file layer -/

/-- Outcome of a Python call: a normal value, or an uncaught exception. -/
inductive PyResult (α : Type) where
  | exn : String → PyResult α
  | val : α → PyResult α
deriving DecidableEq

/-- A file system: maps a path to its lines when the file exists. -/
abbrev FS := String → Option (List Line)

/-- `parse_energy_log(filename)`: checks `os.path.exists` and returns the
sentinel `(None, None)` (modelled `val none`) for a missing file, otherwise
scans the lines (a bad capture raises `ValueError`). -/
def parse_energy_log (fs : FS) (filename : String) :
    PyResult (Option (List ℚ × EnergySeries)) :=
  match fs filename with
  | none => .val none
  | some lines =>
      match parse_energy_lines lines with
      | .error e => .exn e
      | .ok r => .val (some r)

/-- `parse_pdr_log(filename)`: performs no existence check — `open` raises
`FileNotFoundError` on a missing file; otherwise scans the lines. -/
def parse_pdr_log (fs : FS) (filename : String) : PyResult (List ℚ × List ℚ) :=
  match fs filename with
  | none => .exn "FileNotFoundError"
  | some lines =>
      match parse_pdr_lines lines with
      | .error e => .exn e
      | .ok r => .val r

/-! ### The aggregator -/

/-- The `avg_energy` list built by `plot_average_energy`.  The whole
computation sits under `if node_energy:`, so with an empty mapping no average
list is ever built (result `none`, and the average line is not plotted).
Otherwise, for each `i` in `range(len(times))` the total sums `node_energy
[nid][i]` over exactly the nodes whose list has more than `i` elements, and
the ternary divides by `num_nodes = len(node_energy)` (its `else 0` branch is
unreachable under the outer guard). -/
def averageSeries (node_energy : EnergySeries) (times : List ℚ) : Option (List ℚ) :=
  if node_energy.isEmpty then none
  else
    some ((List.range times.length).map fun i =>
      if 0 < node_energy.length then
        (node_energy.filterMap (fun p => p.2[i]?)).sum / (node_energy.length : ℚ)
      else 0)

/-- Python dict lookup `node_energy[nid]` on the association list (keys are
distinct in an actual dict, so the first hit is the entry). -/
def dictGet (ne : EnergySeries) (nid : Nat) : List ℚ :=
  match ne.find? (fun p => p.1 == nid) with
  | some p => p.2
  | none => []

/-- The `(node_ids, lifetimes)` table built by `plot_network_lifetime`: over
`sorted(node_energy.keys())`, each node is paired with
`len(node_energy[node_id])`. -/
def lifetimeTable (ne : EnergySeries) : List (Nat × Nat) :=
  (List.insertionSort (· ≤ ·) (ne.map Prod.fst)).map fun nid => (nid, (dictGet ne nid).length)

/-! ### The `main` control flow -/

/-- Observable outcome of `main`: an early clean return after a diagnostic
(no charts), a completed run with the list of chart files produced, or an
uncaught exception. -/
inductive MainResult where
  | earlyExit : String → MainResult
  | completed : List String → MainResult
  | raised : String → MainResult
deriving DecidableEq

/-- The control flow of `main`: resolve the log path (argument or default
`simulation.log`), run `parse_energy_log`; on the `(None, None)` sentinel
print the diagnostic and return early with no charts; otherwise generate the
three energy charts when both results are nonempty, run `parse_pdr_log`,
generate the PDR chart when its results are nonempty, and always finish with
the efficiency-comparison chart. -/
def main_run (fs : FS) (arg : Option String) : MainResult :=
  let log_file := arg.getD "simulation.log"
  match parse_energy_log fs log_file with
  | .exn e => .raised e
  | .val none => .earlyExit "Error: Could not parse log file"
  | .val (some tne) =>
      let energyCharts :=
        if ¬tne.1.isEmpty ∧ ¬tne.2.isEmpty then
          ["energy_consumption.png", "average_energy.png", "network_lifetime.png"]
        else []
      match parse_pdr_log fs log_file with
      | .exn e => .raised e
      | .val tp =>
          let pdrCharts := if ¬tp.1.isEmpty ∧ ¬tp.2.isEmpty then ["pdr_graph.png"] else []
          .completed (energyCharts ++ pdrCharts ++ ["energy_efficiency.png"])

/-- First-occurrence order of a list of keys: the order in which distinct
values first appear. -/
def firstSeen (l : List Nat) : List Nat :=
  l.foldl (fun acc x => if x ∈ acc then acc else acc ++ [x]) []

/-! ### Helper lemmas -/

theorem ok_bind {σ α : Type} (x : α) (f : α → Except String σ) :
    (Except.ok x : Except String α) >>= f = f x := rfl

theorem foldlM_cons_except {σ α : Type} (f : σ → α → Except String σ) (init : σ)
    (a : α) (as : List α) :
    List.foldlM f init (a :: as) = f init a >>= fun s => List.foldlM f s as := rfl

theorem foldlM_nil_except {σ α : Type} (f : σ → α → Except String σ) (init : σ) :
    List.foldlM f init ([] : List α) = Except.ok init := rfl

/-- Evaluation rule for `pyFloatOfRun` on a convertible capture, splitting the
work into kernel-reducible pieces and one rational identity. -/
theorem pyFloatOfRun_eval (v : List Char) (n m k : ℕ) (q : ℚ)
    (h1 : v.count '.' ≤ 1) (h2 : v.any Char.isDigit = true)
    (h3 : natOfDigits (v.takeWhile (fun c => c ≠ '.')) = n)
    (h4 : natOfDigits ((v.dropWhile (fun c => c ≠ '.')).drop 1) = m)
    (h5 : ((v.dropWhile (fun c => c ≠ '.')).drop 1).length = k)
    (hq : (n : ℚ) + (m : ℚ) / (10 : ℚ) ^ k = q) :
    pyFloatOfRun v = some q := by
  unfold pyFloatOfRun
  rw [if_pos ⟨h1, h2⟩, h3, h4, h5, hq]

/-- Evaluation rule for `pyFloatOfRun` on a capture `float` rejects. -/
theorem pyFloatOfRun_fail (v : List Char) (h : ¬(v.count '.' ≤ 1 ∧ v.any Char.isDigit = true)) :
    pyFloatOfRun v = none := by
  unfold pyFloatOfRun
  exact if_neg h

/-- Per-line step, case: both the energy and the time pattern match and both
captures convert. -/
theorem energyLineStep_both (ts : List ℚ) (ne : EnergySeries) (line : Line)
    (d v tv : List Char) (q tq : ℚ)
    (he : searchEnergy line = some (d, v)) (hq : pyFloatOfRun v = some q)
    (ht : searchTime line = some tv) (htq : pyFloatOfRun tv = some tq) :
    energyLineStep (ts, ne) line = Except.ok (ts ++ [tq], appendEnergy ne (natOfDigits d) q) := by
  simp [energyLineStep, energyUpd, timesUpd, he, hq, ht, htq]
  rfl

/-- Per-line step, case: only the energy pattern matches. -/
theorem energyLineStep_energy (ts : List ℚ) (ne : EnergySeries) (line : Line)
    (d v : List Char) (q : ℚ)
    (he : searchEnergy line = some (d, v)) (hq : pyFloatOfRun v = some q)
    (ht : searchTime line = none) :
    energyLineStep (ts, ne) line = Except.ok (ts, appendEnergy ne (natOfDigits d) q) := by
  simp [energyLineStep, energyUpd, timesUpd, he, hq, ht]
  rfl

/-- Per-line step, case: only the time pattern matches. -/
theorem energyLineStep_time (ts : List ℚ) (ne : EnergySeries) (line : Line)
    (tv : List Char) (tq : ℚ)
    (he : searchEnergy line = none) (ht : searchTime line = some tv)
    (htq : pyFloatOfRun tv = some tq) :
    energyLineStep (ts, ne) line = Except.ok (ts ++ [tq], ne) := by
  simp [energyLineStep, energyUpd, timesUpd, he, ht, htq]
  rfl

/-- Per-line step, case: neither pattern matches; the line is skipped. -/
theorem energyLineStep_skip (ts : List ℚ) (ne : EnergySeries) (line : Line)
    (he : searchEnergy line = none) (ht : searchTime line = none) :
    energyLineStep (ts, ne) line = Except.ok (ts, ne) := by
  simp [energyLineStep, energyUpd, timesUpd, he, ht]
  rfl

/-- Per-line PDR step on a matching line with convertible captures. -/
theorem pdrLineStep_match (ts ps : List ℚ) (line : Line) (v1 v2 : List Char) (q1 q2 : ℚ)
    (hm : searchPdr line = some (v1, v2)) (h1 : pyFloatOfRun v1 = some q1)
    (h2 : pyFloatOfRun v2 = some q2) :
    pdrLineStep (ts, ps) line = Except.ok (ts ++ [q2], ps ++ [q1]) := by
  simp [pdrLineStep, hm, h1, h2]

/-- Per-line PDR step on a non-matching line. -/
theorem pdrLineStep_skip (acc : List ℚ × List ℚ) (line : Line)
    (hm : searchPdr line = none) : pdrLineStep acc line = Except.ok acc := by
  simp [pdrLineStep, hm]

/-- With an empty node mapping the averaging code is skipped entirely. -/
theorem averageSeries_nil (times : List ℚ) : averageSeries [] times = none := rfl

/-- Unfolding of the averaging loop for a nonempty node mapping. -/
theorem averageSeries_cons (p : Nat × List ℚ) (ne : EnergySeries) (times : List ℚ) :
    averageSeries (p :: ne) times =
      some ((List.range times.length).map fun i =>
        if 0 < (p :: ne).length then
          ((p :: ne).filterMap (fun q => q.2[i]?)).sum / (((p :: ne).length : ℚ))
        else 0) := rfl

/-! ### Claims -/

/-- C3: on the seven-line example log, extraction and aggregation produce
exactly the expected EnergySeries, TimeSeries, AverageSeries, LifetimeTable
and PdrSeries; in particular the PDR line contributes nothing to the
TimeSeries. -/
theorem end_to_end_example :
    parse_energy_lines ["Time: 0.0".toList, "Node 1: Energy=1000.0J".toList,
        "Node 2: Energy=950.0J".toList, "Time: 1.0".toList, "Node 1: Energy=900.0J".toList,
        "Node 2: Energy=800.0J".toList, "PDR: 0.90 at time 1.0".toList] =
      Except.ok ([0, 1], [(1, [1000, 900]), (2, [950, 800])]) ∧
    parse_pdr_lines ["Time: 0.0".toList, "Node 1: Energy=1000.0J".toList,
        "Node 2: Energy=950.0J".toList, "Time: 1.0".toList, "Node 1: Energy=900.0J".toList,
        "Node 2: Energy=800.0J".toList, "PDR: 0.90 at time 1.0".toList] =
      Except.ok ([1], [9 / 10]) ∧
    averageSeries [(1, [1000, 900]), (2, [950, 800])] [0, 1] = some [975, 850] ∧
    lifetimeTable [(1, [1000, 900]), (2, [950, 800])] = [(1, 2), (2, 2)] := by
  have f00 : pyFloatOfRun ("0.0".toList) = some 0 :=
    pyFloatOfRun_eval _ 0 0 1 0 (by decide) (by decide) (by decide) (by decide) (by decide)
      (by norm_num)
  have f1000 : pyFloatOfRun ("1000.0".toList) = some 1000 :=
    pyFloatOfRun_eval _ 1000 0 1 1000 (by decide) (by decide) (by decide) (by decide) (by decide)
      (by norm_num)
  have f950 : pyFloatOfRun ("950.0".toList) = some 950 :=
    pyFloatOfRun_eval _ 950 0 1 950 (by decide) (by decide) (by decide) (by decide) (by decide)
      (by norm_num)
  have f10 : pyFloatOfRun ("1.0".toList) = some 1 :=
    pyFloatOfRun_eval _ 1 0 1 1 (by decide) (by decide) (by decide) (by decide) (by decide)
      (by norm_num)
  have f900 : pyFloatOfRun ("900.0".toList) = some 900 :=
    pyFloatOfRun_eval _ 900 0 1 900 (by decide) (by decide) (by decide) (by decide) (by decide)
      (by norm_num)
  have f800 : pyFloatOfRun ("800.0".toList) = some 800 :=
    pyFloatOfRun_eval _ 800 0 1 800 (by decide) (by decide) (by decide) (by decide) (by decide)
      (by norm_num)
  have f090 : pyFloatOfRun ("0.90".toList) = some (9 / 10) :=
    pyFloatOfRun_eval _ 0 90 2 (9 / 10) (by decide) (by decide) (by decide) (by decide) (by decide)
      (by norm_num)
  have s1 : energyLineStep ([], []) ("Time: 0.0".toList) = Except.ok ([0], []) := by
    simpa using energyLineStep_time [] [] _ ("0.0".toList) 0 (by decide) (by decide) f00
  have s2 : energyLineStep ([0], []) ("Node 1: Energy=1000.0J".toList) =
      Except.ok ([0], [(1, [1000])]) := by
    simpa [appendEnergy, (by decide : natOfDigits ("1".toList) = 1)] using
      energyLineStep_energy [0] [] _ ("1".toList) ("1000.0".toList) 1000 (by decide) f1000
        (by decide)
  have s3 : energyLineStep ([0], [(1, [1000])]) ("Node 2: Energy=950.0J".toList) =
      Except.ok ([0], [(1, [1000]), (2, [950])]) := by
    simpa [appendEnergy, (by decide : natOfDigits ("2".toList) = 2)] using
      energyLineStep_energy [0] [(1, [1000])] _ ("2".toList) ("950.0".toList) 950 (by decide)
        f950 (by decide)
  have s4 : energyLineStep ([0], [(1, [1000]), (2, [950])]) ("Time: 1.0".toList) =
      Except.ok ([0, 1], [(1, [1000]), (2, [950])]) := by
    simpa using energyLineStep_time [0] [(1, [1000]), (2, [950])] _ ("1.0".toList) 1
      (by decide) (by decide) f10
  have s5 : energyLineStep ([0, 1], [(1, [1000]), (2, [950])])
        ("Node 1: Energy=900.0J".toList) =
      Except.ok ([0, 1], [(1, [1000, 900]), (2, [950])]) := by
    simpa [appendEnergy, (by decide : natOfDigits ("1".toList) = 1)] using
      energyLineStep_energy [0, 1] [(1, [1000]), (2, [950])] _ ("1".toList) ("900.0".toList)
        900 (by decide) f900 (by decide)
  have s6 : energyLineStep ([0, 1], [(1, [1000, 900]), (2, [950])])
        ("Node 2: Energy=800.0J".toList) =
      Except.ok ([0, 1], [(1, [1000, 900]), (2, [950, 800])]) := by
    simpa [appendEnergy, (by decide : natOfDigits ("2".toList) = 2)] using
      energyLineStep_energy [0, 1] [(1, [1000, 900]), (2, [950])] _ ("2".toList)
        ("800.0".toList) 800 (by decide) f800 (by decide)
  have s7 : energyLineStep ([0, 1], [(1, [1000, 900]), (2, [950, 800])])
        ("PDR: 0.90 at time 1.0".toList) =
      Except.ok ([0, 1], [(1, [1000, 900]), (2, [950, 800])]) :=
    energyLineStep_skip _ _ _ (by decide) (by decide)
  have hp : parse_energy_lines ["Time: 0.0".toList, "Node 1: Energy=1000.0J".toList,
      "Node 2: Energy=950.0J".toList, "Time: 1.0".toList, "Node 1: Energy=900.0J".toList,
      "Node 2: Energy=800.0J".toList, "PDR: 0.90 at time 1.0".toList] =
      Except.ok ([0, 1], [(1, [1000, 900]), (2, [950, 800])]) := by
    show List.foldlM energyLineStep ([], []) _ = _
    rw [foldlM_cons_except, s1, ok_bind, foldlM_cons_except, s2, ok_bind,
      foldlM_cons_except, s3, ok_bind, foldlM_cons_except, s4, ok_bind,
      foldlM_cons_except, s5, ok_bind, foldlM_cons_except, s6, ok_bind,
      foldlM_cons_except, s7, ok_bind, foldlM_nil_except]
  have p7 : pdrLineStep ([], []) ("PDR: 0.90 at time 1.0".toList) =
      Except.ok ([1], [9 / 10]) := by
    simpa using pdrLineStep_match [] [] _ ("0.90".toList) ("1.0".toList) (9 / 10) 1
      (by decide) f090 f10
  have hq : parse_pdr_lines ["Time: 0.0".toList, "Node 1: Energy=1000.0J".toList,
      "Node 2: Energy=950.0J".toList, "Time: 1.0".toList, "Node 1: Energy=900.0J".toList,
      "Node 2: Energy=800.0J".toList, "PDR: 0.90 at time 1.0".toList] =
      Except.ok ([1], [9 / 10]) := by
    show List.foldlM pdrLineStep ([], []) _ = _
    rw [foldlM_cons_except, pdrLineStep_skip ([], []) _ (by decide), ok_bind,
      foldlM_cons_except, pdrLineStep_skip ([], []) _ (by decide), ok_bind,
      foldlM_cons_except, pdrLineStep_skip ([], []) _ (by decide), ok_bind,
      foldlM_cons_except, pdrLineStep_skip ([], []) _ (by decide), ok_bind,
      foldlM_cons_except, pdrLineStep_skip ([], []) _ (by decide), ok_bind,
      foldlM_cons_except, pdrLineStep_skip ([], []) _ (by decide), ok_bind,
      foldlM_cons_except, p7, ok_bind, foldlM_nil_except]
  have ha : averageSeries [(1, [1000, 900]), (2, [950, 800])] [0, 1] = some [975, 850] := by
    rw [averageSeries_cons]
    norm_num [List.range_succ, List.filterMap_cons, List.sum_cons, List.getElem?_cons_zero,
      List.getElem?_cons_succ]
  have hl : lifetimeTable [(1, [1000, 900]), (2, [950, 800])] = [(1, 2), (2, 2)] := by
    decide
  exact ⟨hp, hq, ha, hl⟩

/-- C5 counterexample: with an empty EnergySeries and TimeSeries `[0.0]` the
code produces no average list at all (the computation is skipped by the
`if node_energy:` guard), not the zero sequence `[0.0]` the claim asserts. -/
theorem avg_empty_counterexample :
    averageSeries [] [(0 : ℚ)] = none ∧ averageSeries [] [(0 : ℚ)] ≠ some [(0 : ℚ)] := by
  refine ⟨rfl, by decide⟩

/-- C5 amended: if the EnergySeries is empty, the aggregator computes no
AverageSeries at all for any TimeSeries — the averaging loop sits under a
non-emptiness guard, so it is skipped and no division by zero occurs (the
inner guard that would substitute 0 is unreachable). -/
theorem avg_empty_skipped (times : List ℚ) : averageSeries [] times = none :=
  averageSeries_nil times

/-- C7 counterexample: on a missing file `parse_pdr_log` does not return an
empty or sentinel result — it raises `FileNotFoundError` from `open`, since
unlike `parse_energy_log` it performs no existence check. -/
theorem pdr_missing_file_raises :
    parse_pdr_log (fun _ => none) "simulation.log" = PyResult.exn "FileNotFoundError" := rfl

/-- C7 amended: on a file path that does not resolve to a readable file, the
energy/time pass returns the `(None, None)` sentinel to the caller, while the
PDR pass performs no existence check and raises `FileNotFoundError` (in the
program it is only reached after the energy pass found the file). -/
theorem missing_file_behavior (fs : FS) (fn : String) (h : fs fn = none) :
    parse_energy_log fs fn = PyResult.val none ∧
    parse_pdr_log fs fn = PyResult.exn "FileNotFoundError" := by
  constructor <;> simp [parse_energy_log, parse_pdr_log, h]

/-- Witness for `missing_file_behavior` at an everywhere-empty file system. -/
theorem missing_file_behavior_witness :
    parse_energy_log (fun _ => none) "simulation.log" = PyResult.val none ∧
    parse_pdr_log (fun _ => none) "simulation.log" = PyResult.exn "FileNotFoundError" :=
  missing_file_behavior (fun _ => none) "simulation.log" rfl

/-- C8: whenever the resolved log path (argument, or the default
`simulation.log`) is missing, `main` detects the `(None, None)` sentinel,
prints the diagnostic, generates no energy or PDR charts, and returns early
and cleanly — no exception is raised. -/
theorem main_missing_file_early_exit (fs : FS) (arg : Option String)
    (h : fs (arg.getD "simulation.log") = none) :
    main_run fs arg = MainResult.earlyExit "Error: Could not parse log file" := by
  simp [main_run, parse_energy_log, h]

/-- Witness for `main_missing_file_early_exit` at an everywhere-empty file
system with no command-line argument. -/
theorem main_missing_file_early_exit_witness :
    main_run (fun _ => none) none = MainResult.earlyExit "Error: Could not parse log file" :=
  main_missing_file_early_exit (fun _ => none) none rfl


/-- Dict lookup on an association list with distinct keys finds the member
entry. -/
theorem dictGet_eq_of_mem (ne : EnergySeries) (nid : Nat) (vs : List ℚ)
    (hnd : (ne.map Prod.fst).Nodup) (hmem : (nid, vs) ∈ ne) : dictGet ne nid = vs := by
  induction ne with
  | nil => cases hmem
  | cons p rest ih =>
      rw [List.map_cons, List.nodup_cons] at hnd
      rcases List.mem_cons.mp hmem with h | h
      · subst h
        simp [dictGet, List.find?_cons_of_pos]
      · have hne : p.1 ≠ nid := by
          intro he
          exact hnd.1 (he ▸ List.mem_map.mpr ⟨(nid, vs), h, rfl⟩)
        have ihh := ih hnd.2 h
        unfold dictGet at ihh ⊢
        rw [List.find?_cons_of_neg _ (by simp [hne])]
        exact ihh

/-- Lookup in a key-to-value table built by mapping over a duplicate-free key
list containing the key. -/
theorem table_find (l : List Nat) (f : Nat → Nat) (nid : Nat)
    (hnd : l.Nodup) (hm : nid ∈ l) :
    (l.map (fun k => (k, f k))).find? (fun p => p.1 == nid) = some (nid, f nid) := by
  induction l with
  | nil => cases hm
  | cons a rest ih =>
      rw [List.nodup_cons] at hnd
      rcases List.mem_cons.mp hm with h | h
      · subst h
        simp [List.find?_cons_of_pos]
      · have hne : a ≠ nid := fun he => hnd.1 (he ▸ h)
        rw [List.map_cons, List.find?_cons_of_neg _ (by simp [hne])]
        exact ih hnd.2 h

/-- C1: for a nonempty EnergySeries with distinct node keys, the average
series exists, has one value per time index, and at each index equals the sum
of the readings of exactly the nodes long enough to contribute, divided by
the total number of distinct nodes (not the number of contributors). -/
theorem avg_series_formula (ne : EnergySeries) (times : List ℚ)
    (hne : ne ≠ []) (hnd : (ne.map Prod.fst).Nodup) :
    ∃ avg, averageSeries ne times = some avg ∧ avg.length = times.length ∧
      ∀ i, i < times.length →
        avg[i]? = some ((ne.filterMap (fun p => p.2[i]?)).sum /
          (((ne.map Prod.fst).dedup.length : ℚ))) := by
  obtain ⟨p, rest, rfl⟩ : ∃ p rest, ne = p :: rest := by
    cases ne with
    | nil => exact absurd rfl hne
    | cons p rest => exact ⟨p, rest, rfl⟩
  refine ⟨_, averageSeries_cons p rest times, ?_, ?_⟩
  · simp
  · intro i hi
    have hded : ((p :: rest).map Prod.fst).dedup = (p :: rest).map Prod.fst :=
      List.dedup_eq_self.mpr hnd
    rw [List.getElem?_map, List.getElem?_range hi, hded, List.length_map]
    simp

/-- Witness for `avg_series_formula` at a one-node series. -/
theorem avg_series_formula_witness :
    ∃ avg, averageSeries [(1, [(2 : ℚ)])] [(0 : ℚ)] = some avg ∧
      avg.length = [(0 : ℚ)].length ∧
      ∀ i, i < [(0 : ℚ)].length →
        avg[i]? = some (([(1, [(2 : ℚ)])].filterMap (fun p => p.2[i]?)).sum /
          ((([(1, [(2 : ℚ)])].map Prod.fst).dedup.length : ℚ))) :=
  avg_series_formula [(1, [2])] [0] (List.cons_ne_nil _ _) (by decide)

/-- C4: for every EnergySeries with distinct node keys, the lifetime table
pairs each node with the length of exactly that node's energy sequence; the
value some (nid, vs.length) is determined by the node's own sequence alone,
independent of the readings and ordering of every other node. -/
theorem lifetime_counts (ne : EnergySeries) (hnd : (ne.map Prod.fst).Nodup) :
    ∀ nid vs, (nid, vs) ∈ ne →
      (lifetimeTable ne).find? (fun p => p.1 == nid) = some (nid, vs.length) := by
  intro nid vs hmem
  unfold lifetimeTable
  have hperm := List.perm_insertionSort (fun a b => a ≤ b) (ne.map Prod.fst)
  have hnd2 : (List.insertionSort (fun a b => a ≤ b) (ne.map Prod.fst)).Nodup :=
    hperm.nodup_iff.mpr hnd
  have hm : nid ∈ List.insertionSort (fun a b => a ≤ b) (ne.map Prod.fst) :=
    hperm.mem_iff.mpr (List.mem_map.mpr ⟨(nid, vs), hmem, rfl⟩)
  rw [table_find _ _ _ hnd2 hm, dictGet_eq_of_mem ne nid vs hnd hmem]

/-- Witness for `lifetime_counts` at a one-node series with three readings. -/
theorem lifetime_counts_witness :
    (lifetimeTable [(5, [(1 : ℚ), 2, 3])]).find? (fun p => p.1 == 5) =
      some (5, ([(1 : ℚ), 2, 3]).length) :=
  lifetime_counts [(5, [1, 2, 3])] (by decide) 5 [1, 2, 3] (by simp)


/-- A node not yet in the mapping gets a fresh singleton entry at the end of
the insertion order. -/
theorem appendEnergy_not_mem (ne : EnergySeries) (nid : Nat) (q : ℚ)
    (h : nid ∉ ne.map Prod.fst) : appendEnergy ne nid q = ne ++ [(nid, [q])] := by
  induction ne with
  | nil => rfl
  | cons p rest ih =>
      obtain ⟨k, vs⟩ := p
      simp only [List.map_cons, List.mem_cons] at h
      push_neg at h
      simp [appendEnergy, Ne.symm h.1, ih h.2]

/-- Appending a reading updates exactly the addressed node's sequence. -/
theorem dictGet_appendEnergy (ne : EnergySeries) (nid : Nat) (q : ℚ) :
    dictGet (appendEnergy ne nid q) nid = dictGet ne nid ++ [q] := by
  induction ne with
  | nil => simp [appendEnergy, dictGet, List.find?]
  | cons p rest ih =>
      obtain ⟨k, vs⟩ := p
      by_cases hk : k = nid
      · subst hk
        simp [appendEnergy, dictGet, List.find?_cons_of_pos]
      · unfold dictGet at ih ⊢
        simp only [appendEnergy, if_neg hk]
        rw [List.find?_cons_of_neg _ (by simp [hk]), List.find?_cons_of_neg _ (by simp [hk])]
        exact ih

/-- Effect of one append on the key order: an existing key leaves the order
unchanged, a new key is appended at the end. -/
theorem appendEnergy_keys (ne : EnergySeries) (nid : Nat) (q : ℚ) :
    (appendEnergy ne nid q).map Prod.fst =
      if nid ∈ ne.map Prod.fst then ne.map Prod.fst else ne.map Prod.fst ++ [nid] := by
  induction ne with
  | nil => simp [appendEnergy]
  | cons p rest ih =>
      obtain ⟨k, vs⟩ := p
      by_cases hk : k = nid
      · subst hk
        simp [appendEnergy]
      · by_cases hm : nid ∈ rest.map Prod.fst
        · simp [appendEnergy, hk, ih, hm, Ne.symm hk]
        · simp [appendEnergy, hk, ih, hm, Ne.symm hk]

/-- C2: the per-line extraction applies the two pattern matches
independently — a line may contribute to the node mapping, to the time list,
to both, or to neither — and a matched energy value is appended to exactly
the matched node's sequence, which is created at the end of the mapping on
first sight, so the key order is first-appearance order. -/
theorem energy_line_extraction :
    (∀ (ts : List ℚ) (ne : EnergySeries) (line : Line) (d v tv : List Char) (q tq : ℚ),
        searchEnergy line = some (d, v) → pyFloatOfRun v = some q →
        searchTime line = some tv → pyFloatOfRun tv = some tq →
        energyLineStep (ts, ne) line =
          Except.ok (ts ++ [tq], appendEnergy ne (natOfDigits d) q)) ∧
    (∀ (ts : List ℚ) (ne : EnergySeries) (line : Line) (d v : List Char) (q : ℚ),
        searchEnergy line = some (d, v) → pyFloatOfRun v = some q → searchTime line = none →
        energyLineStep (ts, ne) line = Except.ok (ts, appendEnergy ne (natOfDigits d) q)) ∧
    (∀ (ts : List ℚ) (ne : EnergySeries) (line : Line) (tv : List Char) (tq : ℚ),
        searchEnergy line = none → searchTime line = some tv → pyFloatOfRun tv = some tq →
        energyLineStep (ts, ne) line = Except.ok (ts ++ [tq], ne)) ∧
    (∀ (ts : List ℚ) (ne : EnergySeries) (line : Line),
        searchEnergy line = none → searchTime line = none →
        energyLineStep (ts, ne) line = Except.ok (ts, ne)) ∧
    (∀ (ne : EnergySeries) (nid : Nat) (q : ℚ),
        nid ∉ ne.map Prod.fst → appendEnergy ne nid q = ne ++ [(nid, [q])]) ∧
    (∀ (ne : EnergySeries) (nid : Nat) (q : ℚ),
        dictGet (appendEnergy ne nid q) nid = dictGet ne nid ++ [q]) ∧
    (∀ (ne : EnergySeries) (nid : Nat) (q : ℚ),
        (appendEnergy ne nid q).map Prod.fst =
          if nid ∈ ne.map Prod.fst then ne.map Prod.fst else ne.map Prod.fst ++ [nid]) :=
  ⟨energyLineStep_both, energyLineStep_energy, energyLineStep_time, energyLineStep_skip,
    appendEnergy_not_mem, dictGet_appendEnergy, appendEnergy_keys⟩

/-- Witness for `energy_line_extraction` on a line matching both patterns. -/
theorem energy_line_extraction_witness :
    energyLineStep ([], []) ("Node 7: Energy=5J Time: 2".toList) =
      Except.ok ([(2 : ℚ)], [(7, [(5 : ℚ)])]) := by
  have f5 : pyFloatOfRun ("5".toList) = some 5 :=
    pyFloatOfRun_eval _ 5 0 0 5 (by decide) (by decide) (by decide) (by decide) (by decide)
      (by norm_num)
  have f2 : pyFloatOfRun ("2".toList) = some 2 :=
    pyFloatOfRun_eval _ 2 0 0 2 (by decide) (by decide) (by decide) (by decide) (by decide)
      (by norm_num)
  have h := energy_line_extraction.1 [] [] ("Node 7: Energy=5J Time: 2".toList)
    ("7".toList) ("5".toList) ("2".toList) 5 2 (by decide) f5 (by decide) f2
  simpa [appendEnergy, (by decide : natOfDigits ("7".toList) = 7)] using h

theorem err_bind {σ α : Type} (e : String) (f : α → Except String σ) :
    (Except.error e : Except String α) >>= f = Except.error e := rfl

/-- One PDR step preserves the equal-length invariant of the two parallel
lists. -/
theorem pdrLineStep_len (acc : List ℚ × List ℚ) (line : Line) (acc1 : List ℚ × List ℚ)
    (h : pdrLineStep acc line = Except.ok acc1) (hlen : acc.1.length = acc.2.length) :
    acc1.1.length = acc1.2.length := by
  unfold pdrLineStep at h
  split at h
  · split at h
    · injection h with h3
      rw [← h3]
      simp [hlen]
    · exact Except.noConfusion h
  · injection h with h2
    rw [← h2]
    exact hlen

/-- The PDR fold preserves the equal-length invariant. -/
theorem pdr_fold_len (lines : List Line) : ∀ (acc : List ℚ × List ℚ) (ts ps : List ℚ),
    List.foldlM pdrLineStep acc lines = Except.ok (ts, ps) →
    acc.1.length = acc.2.length → ts.length = ps.length := by
  induction lines with
  | nil =>
      intro acc ts ps h hlen
      rw [foldlM_nil_except] at h
      injection h with h2
      rw [h2] at hlen
      exact hlen
  | cons l ls ih =>
      intro acc ts ps h hlen
      rw [foldlM_cons_except] at h
      cases hstep : pdrLineStep acc l with
      | error e => rw [hstep, err_bind] at h; exact Except.noConfusion h
      | ok acc1 =>
          rw [hstep, ok_bind] at h
          exact ih acc1 ts ps h (pdrLineStep_len acc l acc1 hstep hlen)

/-- C6: the PdrSeries is two parallel sequences of equal length; each row is
produced atomically from one line matching both fields, and a line on which
the two-field pattern fails (for instance a ratio with no time) contributes
to neither sequence. -/
theorem pdr_parallel_atomic :
    (∀ (lines : List Line) (ts ps : List ℚ),
        parse_pdr_lines lines = Except.ok (ts, ps) → ts.length = ps.length) ∧
    (∀ (acc : List ℚ × List ℚ) (line : Line), searchPdr line = none →
        pdrLineStep acc line = Except.ok acc) ∧
    (∀ (ts ps : List ℚ) (line : Line) (v1 v2 : List Char) (q1 q2 : ℚ),
        searchPdr line = some (v1, v2) → pyFloatOfRun v1 = some q1 →
        pyFloatOfRun v2 = some q2 →
        pdrLineStep (ts, ps) line = Except.ok (ts ++ [q2], ps ++ [q1])) := by
  refine ⟨?_, pdrLineStep_skip, pdrLineStep_match⟩
  intro lines ts ps h
  exact pdr_fold_len lines ([], []) ts ps h rfl

/-- Witness for `pdr_parallel_atomic`: a one-line log with a full match gives
parallel singletons, and a ratio-only line is dropped as a unit. -/
theorem pdr_parallel_atomic_witness :
    ([(3 : ℚ)].length = [(1 : ℚ) / 2].length) ∧
    pdrLineStep ([], []) ("PDR: 0.5 and nothing else".toList) = Except.ok ([], []) := by
  constructor
  · have f05 : pyFloatOfRun ("0.5".toList) = some (1 / 2) :=
      pyFloatOfRun_eval _ 0 5 1 (1 / 2) (by decide) (by decide) (by decide) (by decide)
        (by decide) (by norm_num)
    have f3 : pyFloatOfRun ("3".toList) = some 3 :=
      pyFloatOfRun_eval _ 3 0 0 3 (by decide) (by decide) (by decide) (by decide) (by decide)
        (by norm_num)
    have hstep : pdrLineStep ([], []) ("PDR: 0.5 at time 3".toList) =
        Except.ok ([3], [1 / 2]) := by
      simpa using pdrLineStep_match [] [] _ ("0.5".toList) ("3".toList) (1 / 2) 3
        (by decide) f05 f3
    have hp : parse_pdr_lines [("PDR: 0.5 at time 3".toList)] = Except.ok ([3], [1 / 2]) := by
      show List.foldlM pdrLineStep ([], []) _ = _
      rw [foldlM_cons_except, hstep, ok_bind, foldlM_nil_except]
    exact pdr_parallel_atomic.1 _ _ _ hp
  · exact pdr_parallel_atomic.2.1 ([], []) _ (by decide)


/-- Case analysis of a successful energy half-step: either no energy match
and the mapping is unchanged, or the matched value was appended to the
matched node. -/
theorem energyUpd_cases (ne : EnergySeries) (line : Line) (ne1 : EnergySeries)
    (h : energyUpd ne line = Except.ok ne1) :
    (searchEnergy line = none ∧ ne1 = ne) ∨
    (∃ d v q, searchEnergy line = some (d, v) ∧ pyFloatOfRun v = some q ∧
      ne1 = appendEnergy ne (natOfDigits d) q) := by
  unfold energyUpd at h
  split at h
  · rename_i dv heq
    split at h
    · rename_i q hq
      injection h with h2
      exact Or.inr ⟨dv.1, dv.2, q, by rw [heq], hq, h2.symm⟩
    · exact Except.noConfusion h
  · rename_i heq
    injection h with h2
    exact Or.inl ⟨heq, h2.symm⟩

/-- A successful full step is a successful energy half-step paired with a
successful time half-step. -/
theorem energyLineStep_ok_parts (acc : List ℚ × EnergySeries) (line : Line)
    (ts1 : List ℚ) (ne1 : EnergySeries)
    (h : energyLineStep acc line = Except.ok (ts1, ne1)) :
    energyUpd acc.2 line = Except.ok ne1 ∧ timesUpd acc.1 line = Except.ok ts1 := by
  unfold energyLineStep at h
  cases hne : energyUpd acc.2 line with
  | error e => rw [hne, err_bind] at h; exact Except.noConfusion h
  | ok ne2 =>
      rw [hne, ok_bind] at h
      cases hts : timesUpd acc.1 line with
      | error e => rw [hts, err_bind] at h; exact Except.noConfusion h
      | ok ts2 =>
          rw [hts, ok_bind] at h
          injection h with h2
          injection h2 with h3 h4
          rw [h3, h4]
          exact ⟨rfl, rfl⟩

/-- The key order reached by the energy fold is the accumulator's key order
extended, in first-appearance order, with the node ids extracted from the
lines. -/
theorem energy_fold_keys (lines : List Line) : ∀ (acc : List ℚ × EnergySeries)
    (ts : List ℚ) (ne : EnergySeries),
    List.foldlM energyLineStep acc lines = Except.ok (ts, ne) →
    ne.map Prod.fst =
      (lines.filterMap (fun l => (searchEnergy l).map (fun dv => natOfDigits dv.1))).foldl
        (fun a x => if x ∈ a then a else a ++ [x]) (acc.2.map Prod.fst) := by
  induction lines with
  | nil =>
      intro acc ts ne h
      rw [foldlM_nil_except] at h
      injection h with h2
      rw [h2]
      simp
  | cons l ls ih =>
      intro acc ts ne h
      rw [foldlM_cons_except] at h
      cases hstep : energyLineStep acc l with
      | error e => rw [hstep, err_bind] at h; exact Except.noConfusion h
      | ok acc1 =>
          rw [hstep, ok_bind] at h
          obtain ⟨ts1, ne1⟩ := acc1
          have hkeys := ih (ts1, ne1) ts ne h
          have hparts := energyLineStep_ok_parts acc l ts1 ne1 hstep
          rcases energyUpd_cases acc.2 l ne1 hparts.1 with ⟨hnone, hne1⟩ |
            ⟨d, v, q, hsome, hq, hne1⟩
          · simpa [List.filterMap_cons, hnone, hne1] using hkeys
          · simpa [List.filterMap_cons, hsome, hne1, appendEnergy_keys] using hkeys

/-- C9: extraction is deterministic — equal input texts give equal
EnergySeries, TimeSeries and PdrSeries — and in particular the key order of
the node mapping is a pure function of the input: the first-appearance order
of the node ids matched by the energy pattern. -/
theorem extraction_deterministic :
    (∀ l1 l2 : List Line, l1 = l2 →
        parse_energy_lines l1 = parse_energy_lines l2 ∧
        parse_pdr_lines l1 = parse_pdr_lines l2) ∧
    (∀ (lines : List Line) (ts : List ℚ) (ne : EnergySeries),
        parse_energy_lines lines = Except.ok (ts, ne) →
        ne.map Prod.fst = firstSeen
          (lines.filterMap (fun l => (searchEnergy l).map (fun dv => natOfDigits dv.1)))) := by
  constructor
  · intro l1 l2 h
    subst h
    exact ⟨rfl, rfl⟩
  · intro lines ts ne h
    have hk := energy_fold_keys lines ([], []) ts ne h
    simpa [firstSeen] using hk

/-- Witness for `extraction_deterministic`: a re-run on a fixed one-line log
agrees with itself, and the key order equals the first-appearance order. -/
theorem extraction_deterministic_witness :
    (parse_energy_lines [("Time: 0.5".toList)] = parse_energy_lines [("Time: 0.5".toList)] ∧
      parse_pdr_lines [("Time: 0.5".toList)] = parse_pdr_lines [("Time: 0.5".toList)]) ∧
    ([(3, [(7 : ℚ)])] : EnergySeries).map Prod.fst = firstSeen
      ([("Node 3: Energy=7J".toList)].filterMap
        (fun l => (searchEnergy l).map (fun dv => natOfDigits dv.1))) := by
  constructor
  · exact extraction_deterministic.1 _ _ rfl
  · refine extraction_deterministic.2 [("Node 3: Energy=7J".toList)] [] [(3, [7])] ?_
    have f7 : pyFloatOfRun ("7".toList) = some 7 :=
      pyFloatOfRun_eval _ 7 0 0 7 (by decide) (by decide) (by decide) (by decide) (by decide)
        (by norm_num)
    have hstep : energyLineStep ([], []) ("Node 3: Energy=7J".toList) =
        Except.ok ([], [(3, [7])]) := by
      simpa [appendEnergy, (by decide : natOfDigits ("3".toList) = 3)] using
        energyLineStep_energy [] [] _ ("3".toList) ("7".toList) 7 (by decide) f7 (by decide)
    show List.foldlM energyLineStep ([], []) _ = _
    rw [foldlM_cons_except, hstep, ok_bind, foldlM_nil_except]


/-- A successful greedy `[class]+` capture is a nonempty run of characters of
the class. -/
theorem takeRun1_spec (p : Char → Bool) (cs r rest : List Char)
    (h : takeRun1 p cs = some (r, rest)) : r ≠ [] ∧ ∀ c ∈ r, p c = true := by
  unfold takeRun1 at h
  split at h
  · exact Option.noConfusion h
  · rename_i hne
    injection h with h2
    injection h2 with h3 h4
    constructor
    · rw [← h3]
      intro hnil
      exact hne (by simp [hnil])
    · intro c hc
      rw [← h3] at hc
      exact List.mem_takeWhile_imp hc

/-- The `([\d.]+)` capture of the energy-value fragment is a nonempty run
over the class. -/
theorem energyValHere_capture (cs v : List Char) (h : energyValHere cs = some v) :
    v ≠ [] ∧ ∀ c ∈ v, isNumChar c = true := by
  unfold energyValHere at h
  split at h
  · exact Option.noConfusion h
  · rename_i rest heq
    split at h
    · exact Option.noConfusion h
    · rename_i v0 rest2 htr
      split at h
      · rename_i c cs2
        split at h
        · injection h with h2
          exact h2 ▸ takeRun1_spec isNumChar rest v0 _ htr
        · exact Option.noConfusion h
      · exact Option.noConfusion h

/-- The capture of the rightmost energy-value fragment is a nonempty run
over the class. -/
theorem findLastEnergyVal_capture (cs : List Char) : ∀ v, findLastEnergyVal cs = some v →
    v ≠ [] ∧ ∀ c ∈ v, isNumChar c = true := by
  induction cs with
  | nil => intro v h; exact Option.noConfusion h
  | cons c rest ih =>
      intro v h
      unfold findLastEnergyVal at h
      cases hrec : findLastEnergyVal rest with
      | some w =>
          rw [hrec] at h
          simp at h
          exact h ▸ ih w hrec
      | none =>
          rw [hrec] at h
          simp at h
          exact energyValHere_capture _ _ h

/-- Both captures of the anchored energy pattern are nonempty runs over the
respective classes. -/
theorem energyMatchAt_capture (cs d v : List Char) (h : energyMatchAt cs = some (d, v)) :
    (d ≠ [] ∧ ∀ c ∈ d, c.isDigit = true) ∧ (v ≠ [] ∧ ∀ c ∈ v, isNumChar c = true) := by
  unfold energyMatchAt at h
  split at h
  · exact Option.noConfusion h
  · rename_i rest heq
    split at h
    · exact Option.noConfusion h
    · rename_i ds rest2 htr
      split at h
      · rename_i c rest3
        split at h
        · rw [Option.map_eq_some'] at h
          obtain ⟨w, hw, hdw⟩ := h
          injection hdw with hd hv
          exact ⟨hd ▸ takeRun1_spec Char.isDigit rest ds _ htr,
            hv ▸ findLastEnergyVal_capture rest3 w hw⟩
        · exact Option.noConfusion h
      · exact Option.noConfusion h

/-- C10 shape fact for the energy search. -/
theorem searchEnergy_capture (cs : List Char) : ∀ d v, searchEnergy cs = some (d, v) →
    (d ≠ [] ∧ ∀ c ∈ d, c.isDigit = true) ∧ (v ≠ [] ∧ ∀ c ∈ v, isNumChar c = true) := by
  induction cs with
  | nil => intro d v h; exact Option.noConfusion h
  | cons c rest ih =>
      intro d v h
      unfold searchEnergy at h
      cases hat : energyMatchAt (c :: rest) with
      | some pr =>
          obtain ⟨d0, v0⟩ := pr
          rw [hat] at h
          simp at h
          exact h.1 ▸ h.2 ▸ energyMatchAt_capture _ _ _ hat
      | none =>
          rw [hat] at h
          simp at h
          exact ih d v h

/-- The capture of the anchored time pattern is a nonempty run over the
class. -/
theorem timeMatchAt_capture (cs v : List Char) (h : timeMatchAt cs = some v) :
    v ≠ [] ∧ ∀ c ∈ v, isNumChar c = true := by
  unfold timeMatchAt at h
  split at h
  · exact Option.noConfusion h
  · rename_i rest heq
    split at h
    · exact Option.noConfusion h
    · rename_i v0 rest2 htr
      injection h with h2
      exact h2 ▸ takeRun1_spec isNumChar rest v0 _ htr

/-- C10 shape fact for the time search. -/
theorem searchTime_capture (cs : List Char) : ∀ v, searchTime cs = some v →
    v ≠ [] ∧ ∀ c ∈ v, isNumChar c = true := by
  induction cs with
  | nil => intro v h; exact Option.noConfusion h
  | cons c rest ih =>
      intro v h
      unfold searchTime at h
      cases hat : timeMatchAt (c :: rest) with
      | some w =>
          rw [hat] at h
          simp at h
          exact h ▸ timeMatchAt_capture _ _ hat
      | none =>
          rw [hat] at h
          simp at h
          exact ih v h

/-- The capture of the anchored PDR time fragment is a nonempty run over the
class. -/
theorem pdrTimeHere_capture (cs v : List Char) (h : pdrTimeHere cs = some v) :
    v ≠ [] ∧ ∀ c ∈ v, isNumChar c = true := by
  unfold pdrTimeHere at h
  split at h
  · exact Option.noConfusion h
  · rename_i rest heq
    split at h
    · exact Option.noConfusion h
    · rename_i v0 rest2 htr
      injection h with h2
      exact h2 ▸ takeRun1_spec isNumChar rest v0 _ htr

/-- The capture of the rightmost PDR time fragment is a nonempty run over the
class. -/
theorem findLastPdrTime_capture (cs : List Char) : ∀ v, findLastPdrTime cs = some v →
    v ≠ [] ∧ ∀ c ∈ v, isNumChar c = true := by
  induction cs with
  | nil => intro v h; exact Option.noConfusion h
  | cons c rest ih =>
      intro v h
      unfold findLastPdrTime at h
      cases hrec : findLastPdrTime rest with
      | some w =>
          rw [hrec] at h
          simp at h
          exact h ▸ ih w hrec
      | none =>
          rw [hrec] at h
          simp at h
          exact pdrTimeHere_capture _ _ h

/-- Both captures of the anchored PDR pattern are nonempty runs over the
class. -/
theorem pdrMatchAt_capture (cs v1 v2 : List Char) (h : pdrMatchAt cs = some (v1, v2)) :
    (v1 ≠ [] ∧ ∀ c ∈ v1, isNumChar c = true) ∧ (v2 ≠ [] ∧ ∀ c ∈ v2, isNumChar c = true) := by
  unfold pdrMatchAt at h
  split at h
  · exact Option.noConfusion h
  · rename_i rest heq
    split at h
    · exact Option.noConfusion h
    · rename_i w1 rest2 htr
      rw [Option.map_eq_some'] at h
      obtain ⟨w2, hw2, hdw⟩ := h
      injection hdw with h1 h2
      exact ⟨h1 ▸ takeRun1_spec isNumChar rest w1 _ htr,
        h2 ▸ findLastPdrTime_capture rest2 w2 hw2⟩

/-- C10 shape fact for the PDR search. -/
theorem searchPdr_capture (cs : List Char) : ∀ v1 v2, searchPdr cs = some (v1, v2) →
    (v1 ≠ [] ∧ ∀ c ∈ v1, isNumChar c = true) ∧ (v2 ≠ [] ∧ ∀ c ∈ v2, isNumChar c = true) := by
  induction cs with
  | nil => intro v1 v2 h; exact Option.noConfusion h
  | cons c rest ih =>
      intro v1 v2 h
      unfold searchPdr at h
      cases hat : pdrMatchAt (c :: rest) with
      | some pr =>
          obtain ⟨w1, w2⟩ := pr
          rw [hat] at h
          simp at h
          exact h.1 ▸ h.2 ▸ pdrMatchAt_capture _ _ _ hat
      | none =>
          rw [hat] at h
          simp at h
          exact ih v1 v2 h

/-- Conversion of a capture succeeds exactly when it has at most one dot and
at least one digit. -/
theorem pyFloatOfRun_isSome (v : List Char) :
    (pyFloatOfRun v).isSome ↔ (v.count '.' ≤ 1 ∧ v.any Char.isDigit = true) := by
  by_cases hc : v.count '.' ≤ 1 ∧ v.any Char.isDigit = true
  · simp [pyFloatOfRun, hc]
  · simp [pyFloatOfRun, hc]


/-- A matched energy line whose capture fails conversion makes the whole step
raise `ValueError`. -/
theorem energyLineStep_energy_fail (acc : List ℚ × EnergySeries) (line : Line)
    (d v : List Char) (he : searchEnergy line = some (d, v)) (hq : pyFloatOfRun v = none) :
    energyLineStep acc line = Except.error "ValueError" := by
  simp [energyLineStep, energyUpd, he, hq]
  rfl

/-- C10 counterexample: the claim that every substring captured by the
numeric field pattern is a valid float literal fails on the line
`Node 1: Energy=1.2.3J` — the energy pattern matches with capture `1.2.3`,
`float` rejects it, and the extraction pass raises `ValueError` instead of
being total. -/
theorem capture_conversion_counterexample :
    searchEnergy ("Node 1: Energy=1.2.3J".toList) =
      some ("1".toList, "1.2.3".toList) ∧
    pyFloatOfRun ("1.2.3".toList) = none ∧
    parse_energy_lines [("Node 1: Energy=1.2.3J".toList)] = Except.error "ValueError" := by
  have hf : pyFloatOfRun ("1.2.3".toList) = none := pyFloatOfRun_fail _ (by decide)
  refine ⟨by decide, hf, ?_⟩
  show List.foldlM energyLineStep ([], []) _ = _
  rw [foldlM_cons_except,
    energyLineStep_energy_fail ([], []) _ ("1".toList) ("1.2.3".toList) (by decide) hf,
    err_bind]

/-- C10 amended: whenever one of the three patterns matches, every captured
numeric field is a nonempty run of digits and dots, and the string-to-float
conversion of such a capture succeeds exactly when the capture has at most
one dot and at least one digit — captures such as `1.2.3` make the
conversion raise `ValueError`, so the passes are not total. -/
theorem capture_shape_and_conversion :
    (∀ (line : Line) (d v : List Char), searchEnergy line = some (d, v) →
        (d ≠ [] ∧ ∀ c ∈ d, c.isDigit = true) ∧ (v ≠ [] ∧ ∀ c ∈ v, isNumChar c = true) ∧
        ((pyFloatOfRun v).isSome ↔ (v.count '.' ≤ 1 ∧ v.any Char.isDigit = true))) ∧
    (∀ (line : Line) (v : List Char), searchTime line = some v →
        (v ≠ [] ∧ ∀ c ∈ v, isNumChar c = true) ∧
        ((pyFloatOfRun v).isSome ↔ (v.count '.' ≤ 1 ∧ v.any Char.isDigit = true))) ∧
    (∀ (line : Line) (v1 v2 : List Char), searchPdr line = some (v1, v2) →
        (v1 ≠ [] ∧ ∀ c ∈ v1, isNumChar c = true) ∧
        (v2 ≠ [] ∧ ∀ c ∈ v2, isNumChar c = true) ∧
        ((pyFloatOfRun v1).isSome ↔ (v1.count '.' ≤ 1 ∧ v1.any Char.isDigit = true)) ∧
        ((pyFloatOfRun v2).isSome ↔ (v2.count '.' ≤ 1 ∧ v2.any Char.isDigit = true))) := by
  refine ⟨?_, ?_, ?_⟩
  · intro line d v h
    obtain ⟨hd, hv⟩ := searchEnergy_capture line d v h
    exact ⟨hd, hv, pyFloatOfRun_isSome v⟩
  · intro line v h
    exact ⟨searchTime_capture line v h, pyFloatOfRun_isSome v⟩
  · intro line v1 v2 h
    obtain ⟨h1, h2⟩ := searchPdr_capture line v1 v2 h
    exact ⟨h1, h2, pyFloatOfRun_isSome v1, pyFloatOfRun_isSome v2⟩

/-- Witness for `capture_shape_and_conversion` on three concrete matching
lines. -/
theorem capture_shape_and_conversion_witness :
    ((("1".toList : List Char) ≠ [] ∧ ∀ c ∈ ("1".toList : List Char), c.isDigit = true) ∧
      (("5".toList : List Char) ≠ [] ∧
        ∀ c ∈ ("5".toList : List Char), isNumChar c = true) ∧
      ((pyFloatOfRun ("5".toList)).isSome ↔
        (("5".toList).count '.' ≤ 1 ∧ ("5".toList).any Char.isDigit = true))) ∧
    ((("3.5".toList : List Char) ≠ [] ∧
        ∀ c ∈ ("3.5".toList : List Char), isNumChar c = true) ∧
      ((pyFloatOfRun ("3.5".toList)).isSome ↔
        (("3.5".toList).count '.' ≤ 1 ∧ ("3.5".toList).any Char.isDigit = true))) ∧
    ((("0.9".toList : List Char) ≠ [] ∧
        ∀ c ∈ ("0.9".toList : List Char), isNumChar c = true) ∧
      (("2".toList : List Char) ≠ [] ∧
        ∀ c ∈ ("2".toList : List Char), isNumChar c = true) ∧
      ((pyFloatOfRun ("0.9".toList)).isSome ↔
        (("0.9".toList).count '.' ≤ 1 ∧ ("0.9".toList).any Char.isDigit = true)) ∧
      ((pyFloatOfRun ("2".toList)).isSome ↔
        (("2".toList).count '.' ≤ 1 ∧ ("2".toList).any Char.isDigit = true))) :=
  ⟨capture_shape_and_conversion.1 ("Node 1: Energy=5J".toList) ("1".toList) ("5".toList)
      (by decide),
    capture_shape_and_conversion.2.1 ("Time: 3.5".toList) ("3.5".toList) (by decide),
    capture_shape_and_conversion.2.2 ("PDR: 0.9 at time 2".toList) ("0.9".toList)
      ("2".toList) (by decide)⟩

end EnergyGraphs
